import Mathlib

/-!
Verification of the n8n-visualizer data pipeline.

This file gives a shallow embedding of the two Python scripts of the
repository — `merge_data.py` and `supabase_export_tables.py` — and proves
properties of the embedded functions.

JSON-decoded Python values are modelled by the mutual inductive type
`JVal` (null, strings, objects, arrays; the inputs handled by the scripts
are JSON files).  Python truthiness and the `or` operator are modelled by
`pyTruthy` and `pyOr`.  Python `set`s of hashable values are modelled by
`Finset JVal`.
-/

namespace N8nVis

mutual
/-- A JSON-decoded Python value: `None`, a string, a dict, or a list. -/
inductive JVal where
  | null
  | str (s : String)
  | obj (fields : JFields)
  | arr (elems : JList)
  deriving DecidableEq, Repr

/-- The key-value bindings of a JSON object (keys are unique, as produced
by `json.load`). -/
inductive JFields where
  | nil
  | cons (k : String) (v : JVal) (rest : JFields)
  deriving DecidableEq, Repr

/-- The elements of a JSON array. -/
inductive JList where
  | nil
  | cons (v : JVal) (rest : JList)
  deriving DecidableEq, Repr
end

/-- The bindings of a JSON object as a Lean list. -/
def JFields.toList : JFields → List (String × JVal)
  | .nil => []
  | .cons k v rest => (k, v) :: rest.toList

/-- The elements of a JSON array as a Lean list. -/
def JList.toList : JList → List JVal
  | .nil => []
  | .cons v rest => v :: rest.toList

/-- Build a JSON object from a Lean list of bindings. -/
def JFields.ofList : List (String × JVal) → JFields
  | [] => .nil
  | (k, v) :: rest => .cons k v (JFields.ofList rest)

/-- Build a JSON array from a Lean list of values. -/
def JList.ofList : List JVal → JList
  | [] => .nil
  | v :: rest => .cons v (JList.ofList rest)

/-- Shorthand for a JSON object literal. -/
def JVal.mkObj (l : List (String × JVal)) : JVal :=
  .obj (JFields.ofList l)

/-- Shorthand for a JSON array literal. -/
def JVal.mkArr (l : List JVal) : JVal :=
  .arr (JList.ofList l)

/-- First binding of a key in an object's fields (Python dict keys are
unique, so which occurrence is taken is immaterial on real inputs). -/
def JFields.find (k : String) : JFields → Option JVal
  | .nil => none
  | .cons k1 v rest => if k1 = k then some v else rest.find k

/-- Whether an object has no bindings. -/
def JFields.isEmpty : JFields → Bool
  | .nil => true
  | .cons _ _ _ => false

/-- Whether an array has no elements. -/
def JList.isEmpty : JList → Bool
  | .nil => true
  | .cons _ _ => false

/-- Python `d.get(k)`: the value bound to `k`, or `None`.  (The scripts
only call `.get` on dicts; on a non-dict the model returns `None`.) -/
def jget (v : JVal) (k : String) : JVal :=
  match v with
  | .obj fs => (fs.find k).getD .null
  | _ => .null

/-- Python `d.get(k, default)`. -/
def jgetD (v : JVal) (k : String) (d : JVal) : JVal :=
  match v with
  | .obj fs => (fs.find k).getD d
  | _ => d

/-- Python truthiness of a JSON-decoded value: `None` is falsy, a string
is truthy iff non-empty, a dict iff non-empty, a list iff non-empty. -/
def pyTruthy : JVal → Bool
  | .null => false
  | .str s => !s.isEmpty
  | .obj fs => !fs.isEmpty
  | .arr l => !l.isEmpty

/-- Python `a or b`: the first operand if truthy, else the second. -/
def pyOr (a b : JVal) : JVal :=
  if pyTruthy a then a else b

/-- Iterating over a value that is a JSON list (`for x in v`); the
scripts only iterate over lists. -/
def jitems : JVal → List JVal
  | .arr l => l.toList
  | _ => []

/-- Python `str.startswith` on character lists. -/
def startsWithList : List Char → List Char → Bool
  | [], _ => true
  | _ :: _, [] => false
  | a :: as, b :: bs => a == b && startsWithList as bs

/-- Python substring containment `needle in hay` on character lists. -/
def containsList (needle : List Char) : List Char → Bool
  | [] => startsWithList needle []
  | c :: rest => startsWithList needle (c :: rest) || containsList needle rest

/-- Python `needle in hay` for strings. -/
def strContains (hay needle : String) : Bool :=
  containsList needle.toList hay.toList

/-- Python `str.lower()` (ASCII case folding, which is all that matters
for the node-type comparisons of the source). -/
def strLower (s : String) : String :=
  String.mk (s.toList.map Char.toLower)

mutual
/-- Python `str(v)` / `repr(v)` of a JSON-decoded value (string escaping
inside reprs is not reproduced; the analysed code never inspects these
reprs, it can only add them verbatim to a set). -/
def pyRepr : JVal → String
  | .null => "None"
  | .str s => "'" ++ s ++ "'"
  | .obj fs => "\x7b" ++ pyReprFields fs ++ "\x7d"
  | .arr l => "[" ++ pyReprList l ++ "]"

/-- Comma-separated repr of dict bindings. -/
def pyReprFields : JFields → String
  | .nil => ""
  | .cons k v rest =>
      "'" ++ k ++ "': " ++ pyRepr v ++
        (if rest.isEmpty then "" else ", ") ++ pyReprFields rest

/-- Comma-separated repr of list elements. -/
def pyReprList : JList → String
  | .nil => ""
  | .cons v rest =>
      pyRepr v ++ (if rest.isEmpty then "" else ", ") ++ pyReprList rest
end

/-- Embedding of `merge_data.get_value`: safely extract a value from n8n Resource
Locator objects or strings.

    def get_value(v):
        if v is None: return ""
        if isinstance(v, str): return v
        if isinstance(v, dict):
            return v.get("cachedResultName") or v.get("value") or ""
        return str(v)
-/
def get_value : JVal → JVal
  | .null => .str ""
  | .str s => .str s
  | .obj fs => pyOr ((fs.find "cachedResultName").getD .null)
      (pyOr ((fs.find "value").getD .null) (.str ""))
  | .arr l => .str (pyRepr (.arr l))

/-- A character matching the regex class `[a-zA-Z_]`. -/
def isIdentStart (c : Char) : Bool :=
  c.isAlpha || c == '_'

/-- A character matching the regex class `[a-zA-Z0-9_]`. -/
def isIdentChar (c : Char) : Bool :=
  c.isAlphanum || c == '_'

/-- Embedding of `re.search(r"/rpc/([a-zA-Z_][a-zA-Z0-9_]*)", url)` followed by
`match.group(1)`: scan left to right for the first position where the
whole pattern matches and return the captured identifier (the maximal
run of `[a-zA-Z0-9_]` characters after the literal `/rpc/`, starting
with `[a-zA-Z_]`), or `none` when the pattern matches nowhere. -/
def rpcSearch : List Char → Option String
  | [] => none
  | c :: rest =>
      if startsWithList "/rpc/".toList (c :: rest) then
        match (c :: rest).drop 5 with
        | d :: ds =>
            if isIdentStart d then
              some (String.mk ((d :: ds).takeWhile isIdentChar))
            else rpcSearch rest
        | [] => rpcSearch rest
      else rpcSearch rest

/-- The characters of a URL value; `re.search` raises `TypeError` on a
non-string, modelled as the empty subject (no match possible). -/
def urlChars : JVal → List Char
  | .str s => s.toList
  | _ => []

/-- The pair of Python sets `(tables_used, functions_used)` accumulated
by `extract_supabase_references_from_workflows`. -/
abbrev UsageSets := Finset JVal × Finset JVal

/-- The Supabase branch of the node loop in
`extract_supabase_references_from_workflows`:

    if "supabase" in node_type:
        table_name = get_value(params.get("tableName"))
        if table_name and table_name != "Supabase":
            tables_used.add(table_name)
        operation = get_value(params.get("operation"))
        if operation == "call":
            func_name = get_value(params.get("functionName") or params.get("rpc"))
            if func_name:
                functions_used.add(func_name)
-/
def supabase_branch (node_type : String) (params : JVal) (acc : UsageSets) :
    UsageSets :=
  if strContains node_type "supabase" then
    let table_name := get_value (jget params "tableName")
    let acc1 : UsageSets :=
      if pyTruthy table_name ∧ table_name ≠ .str "Supabase" then
        (insert table_name acc.1, acc.2)
      else acc
    let operation := get_value (jget params "operation")
    if operation = .str "call" then
      let func_name := get_value (pyOr (jget params "functionName") (jget params "rpc"))
      if pyTruthy func_name then (acc1.1, insert func_name acc1.2) else acc1
    else acc1
  else acc

/-- The HTTP branch of the node loop in
`extract_supabase_references_from_workflows`:

    if "httprequest" in node_type or "http" in node_type:
        url = get_value(params.get("url", ""))
        match = re.search(r"/rpc/([a-zA-Z_][a-zA-Z0-9_]*)", url)
        if match:
            functions_used.add(match.group(1))
-/
def http_branch (node_type : String) (params : JVal) (acc : UsageSets) :
    UsageSets :=
  if strContains node_type "httprequest" || strContains node_type "http" then
    let url := get_value (jgetD params "url" (.str ""))
    match rpcSearch (urlChars url) with
    | some f => (acc.1, insert (.str f) acc.2)
    | none => acc
  else acc

/-- Embedding of `node_type = (node.get("type") or "").lower()`.  (`.lower()` on a
truthy non-string raises in Python; modelled as the empty string.) -/
def node_type_of (node : JVal) : String :=
  match pyOr (jget node "type") (.str "") with
  | .str s => strLower s
  | _ => ""

/-- Processing of one node of one workflow: the Supabase branch runs
first, then the HTTP branch (both `if`s are tested on every node). -/
def process_node (node : JVal) (acc : UsageSets) : UsageSets :=
  let node_type := node_type_of node
  let params := jgetD node "parameters" (JVal.obj .nil)
  http_branch node_type params (supabase_branch node_type params acc)

/-- The node list of a workflow (`workflow.get("nodes", [])`). -/
def nodes_of (workflow : JVal) : List JVal :=
  jitems (jgetD workflow "nodes" (JVal.mkArr []))

/-- Embedding of `merge_data.extract_supabase_references_from_workflows`: fold the
node loop over `workflow.get("nodes", [])` for each workflow, starting
from two empty sets. -/
def extract_supabase_references_from_workflows (workflows : List JVal) :
    UsageSets :=
  workflows.foldl
    (fun acc workflow =>
      (nodes_of workflow).foldl (fun acc node => process_node node acc) acc)
    (∅, ∅)

/-- An entry of the `supabase.tables` list of `stack_data.json`. -/
structure EnrichedTable where
  name : JVal
  schema : JVal
  used_by_n8n : Bool
  deriving DecidableEq, Repr

/-- An entry of the `supabase.functions` list of `stack_data.json`. -/
structure EnrichedFunction where
  name : JVal
  schema : JVal
  tables_used : JVal
  used_by_n8n : Bool
  deriving DecidableEq, Repr

/-- The `metadata` object of `stack_data.json`. -/
structure Metadata where
  generated_at : String
  workflow_count : Nat
  table_count : Nat
  function_count : Nat
  tables_used_by_n8n : Nat
  functions_used_by_n8n : Nat
  deriving DecidableEq, Repr

/-- The unified report `stack_data.json` built by `merge_data.main`. -/
structure StackData where
  metadata : Metadata
  workflows : List JVal
  supabase_tables : List EnrichedTable
  supabase_functions : List EnrichedFunction
  deriving DecidableEq, Repr

/-- Step 4 of `merge_data.main`, one table of the catalog:

    name = table.get("name")
    enriched_tables.append({
        "name": name,
        "schema": table.get("schema", "public"),
        "used_by_n8n": name in tables_used_by_n8n})
-/
def enrich_table (tables_used_by_n8n : Finset JVal) (table : JVal) :
    EnrichedTable :=
  { name := jget table "name",
    schema := jgetD table "schema" (.str "public"),
    used_by_n8n := decide (jget table "name" ∈ tables_used_by_n8n) }

/-- Step 5 of `merge_data.main`, one function of the catalog:

    name = func.get("name")
    enriched_functions.append({
        "name": name,
        "schema": func.get("schema", "public"),
        "tables_used": func.get("tables_used", []),
        "used_by_n8n": name in functions_used_by_n8n})
-/
def enrich_function (functions_used_by_n8n : Finset JVal) (func : JVal) :
    EnrichedFunction :=
  { name := jget func "name",
    schema := jgetD func "schema" (.str "public"),
    tables_used := jgetD func "tables_used" (JVal.mkArr []),
    used_by_n8n := decide (jget func "name" ∈ functions_used_by_n8n) }

/-- The pure core of `merge_data.main` (steps 3-6): from the workflow
list (already unwrapped from `n8n_data.json`, or `[]` when that file is
missing), the decoded `supabase_data.json` and the generation timestamp,
build the unified report.  File loading and serialisation are outside
the model. -/
def merge_main (workflows : List JVal) (supabase_data : JVal) (now : String) :
    StackData :=
  let used := extract_supabase_references_from_workflows workflows
  let enriched_tables :=
    (jitems (jgetD supabase_data "tables" (JVal.mkArr []))).map
      (enrich_table used.1)
  let enriched_functions :=
    (jitems (jgetD supabase_data "functions" (JVal.mkArr []))).map
      (enrich_function used.2)
  { metadata :=
      { generated_at := now,
        workflow_count := workflows.length,
        table_count := enriched_tables.length,
        function_count := enriched_functions.length,
        tables_used_by_n8n := used.1.card,
        functions_used_by_n8n := used.2.card },
    workflows := workflows,
    supabase_tables := enriched_tables,
    supabase_functions := enriched_functions }

/-- An output record of
`supabase_export_tables.build_functions_with_dependencies`.
`tables_used` holds table names; Python's `sorted` raises `TypeError`
unless all collected values are mutually comparable, which for JSON
values means all strings, so the model carries the string payloads. -/
structure FunctionWithDeps where
  schema : JVal
  name : JVal
  tables_used : List String
  deriving DecidableEq, Repr

/-- The string payload of a JSON value (the analysed code paths only
reach this on strings). -/
def jvalStr : JVal → String
  | .str s => s
  | _ => ""

/-- The grouping key of a dependency record:
`(dep.get("function_schema", "public"), dep.get("function_name"))`. -/
def dep_key (dep : JVal) : JVal × JVal :=
  (jgetD dep "function_schema" (.str "public"), jget dep "function_name")

/-- The dependency map built by the first loop of
`build_functions_with_dependencies`:

    dep_map = {}
    for dep in dependencies:
        key = (dep.get("function_schema", "public"), dep.get("function_name"))
        if key not in dep_map:
            dep_map[key] = set()
        table_name = dep.get("referenced_table")
        if table_name:
            dep_map[key].add(table_name)

The source also stores an empty set for keys none of whose records carry
a truthy `referenced_table`; the second loop reads the map through
`dep_map.get(key, [])`, so an absent key and an empty stored set are
observationally identical and the map is modelled as a total function
defaulting to the empty set. -/
def dep_map (dependencies : List JVal) : JVal × JVal → Finset String :=
  dependencies.foldl
    (fun m dep =>
      let table_name := jget dep "referenced_table"
      if pyTruthy table_name then
        fun key =>
          if key = dep_key dep then insert (jvalStr table_name) (m key)
          else m key
      else m)
    (fun _ => ∅)

/-- Embedding of `supabase_export_tables.build_functions_with_dependencies`:

    result = []
    for fn in functions:
        schema = fn.get("schema_name") or fn.get("function_schema") or "public"
        name = fn.get("function_name") or fn.get("name")
        key = (schema, name)
        tables_used = sorted(dep_map.get(key, []))
        result.append({"schema": schema, "name": name, "tables_used": tables_used})
-/
def build_functions_with_dependencies (functions dependencies : List JVal) :
    List FunctionWithDeps :=
  let m := dep_map dependencies
  functions.map (fun fn =>
    let schema := pyOr (jget fn "schema_name")
      (pyOr (jget fn "function_schema") (.str "public"))
    let name := pyOr (jget fn "function_name") (jget fn "name")
    { schema := schema, name := name,
      tables_used := (m (schema, name)).sort (· ≤ ·) })

/-- The schema of a function record of the catalog, as computed by
`build_functions_with_dependencies`. -/
def fn_schema (fn : JVal) : JVal :=
  pyOr (jget fn "schema_name") (pyOr (jget fn "function_schema") (.str "public"))

/-- The name of a function record of the catalog, as computed by
`build_functions_with_dependencies`. -/
def fn_name (fn : JVal) : JVal :=
  pyOr (jget fn "function_name") (jget fn "name")

/-- The parameters dict of a node (`node.get("parameters", {})`). -/
def node_params (node : JVal) : JVal :=
  jgetD node "parameters" (JVal.obj .nil)

/-- Processing `node` adds `v` to the `tables_used` set: the node is
supabase-typed and `v` is the truthy, non-sentinel resolution of
`parameters.tableName`. -/
def AddsTable (node v : JVal) : Prop :=
  strContains (node_type_of node) "supabase" = true ∧
  get_value (jget (node_params node) "tableName") = v ∧
  pyTruthy v = true ∧ v ≠ .str "Supabase"

/-- Processing `node` adds `v` to `functions_used` through the Supabase
branch (operation resolving to `call`, truthy resolved function name
with fallback from `functionName` to `rpc`). -/
def AddsFunctionRpc (node v : JVal) : Prop :=
  strContains (node_type_of node) "supabase" = true ∧
  get_value (jget (node_params node) "operation") = .str "call" ∧
  get_value (pyOr (jget (node_params node) "functionName")
    (jget (node_params node) "rpc")) = v ∧
  pyTruthy v = true

/-- Processing `node` adds `v` to `functions_used` through the HTTP
branch (a `/rpc/<identifier>` match in the resolved url). -/
def AddsFunctionHttp (node v : JVal) : Prop :=
  (strContains (node_type_of node) "httprequest" ||
    strContains (node_type_of node) "http") = true ∧
  ∃ f, rpcSearch (urlChars (get_value (jgetD (node_params node) "url" (.str "")))) =
      some f ∧ v = .str f

/-- The regex pattern `/rpc/([a-zA-Z_][a-zA-Z0-9_]*)` matches at
position `i` of the subject `s`: the literal `/rpc/` occurs at `i` and
is immediately followed by a character of class `[a-zA-Z_]`. -/
def RpcMatchesAt (s : List Char) (i : Nat) : Prop :=
  startsWithList "/rpc/".toList (s.drop i) = true ∧
  ∃ d, (s.drop (i + 5)).head? = some d ∧ isIdentStart d = true

/-- The capture group of a `/rpc/<identifier>` match at position `i`:
the maximal run of `[a-zA-Z0-9_]` characters after the literal. -/
def rpcCaptureAt (s : List Char) (i : Nat) : List Char :=
  (s.drop (i + 5)).takeWhile isIdentChar

/-- Append a binding at the end of an object's fields. -/
def JFields.snoc : JFields → String → JVal → JFields
  | .nil, k, v => .cons k v .nil
  | .cons k1 v1 rest, k, v => .cons k1 v1 (rest.snoc k v)

/-! ### Concrete example inputs (used by witnesses and counterexamples) -/

/-- A Supabase node whose `tableName` is a resource locator with a
cached display name, with an RPC `call` operation. -/
def exSupabaseNode : JVal := JVal.mkObj
  [("type", .str "n8n-nodes-base.supabase"),
   ("parameters", JVal.mkObj
     [("tableName", JVal.mkObj [("cachedResultName", .str "orders")]),
      ("operation", .str "call"),
      ("functionName", .str "refresh_orders")])]

/-- A workflow containing only `exSupabaseNode`. -/
def exWorkflow : JVal := JVal.mkObj [("nodes", JVal.mkArr [exSupabaseNode])]

/-- An HTTP Request node whose URL targets a Supabase RPC endpoint. -/
def exHttpNode : JVal := JVal.mkObj
  [("type", .str "n8n-nodes-base.httpRequest"),
   ("parameters", JVal.mkObj
     [("url", .str "https://x/rest/v1/rpc/compute_totals?x=1")])]

/-- A workflow containing only `exHttpNode`. -/
def exHttpWorkflow : JVal := JVal.mkObj [("nodes", JVal.mkArr [exHttpNode])]

/-- A Supabase RPC node whose `functionName` is the empty string and
whose `rpc` parameter carries the function name. -/
def exRpcFallbackNode : JVal := JVal.mkObj
  [("type", .str "n8n-nodes-base.supabase"),
   ("parameters", JVal.mkObj
     [("operation", .str "call"),
      ("functionName", .str ""),
      ("rpc", .str "do_totals")])]

/-- A workflow containing only `exRpcFallbackNode`. -/
def exRpcFallbackWorkflow : JVal :=
  JVal.mkObj [("nodes", JVal.mkArr [exRpcFallbackNode])]

/-- A small non-empty Supabase catalog. -/
def exCatalog : JVal := JVal.mkObj
  [("tables", JVal.mkArr
     [JVal.mkObj [("name", .str "orders")],
      JVal.mkObj [("name", .str "users"), ("schema", .str "audit")]]),
   ("functions", JVal.mkArr
     [JVal.mkObj [("name", .str "compute_totals")]])]

/-- The catalog `exCatalog` with its two tables listed in the opposite order. -/
def exCatalogSwapped : JVal := JVal.mkObj
  [("tables", JVal.mkArr
     [JVal.mkObj [("name", .str "users"), ("schema", .str "audit")],
      JVal.mkObj [("name", .str "orders")]]),
   ("functions", JVal.mkArr
     [JVal.mkObj [("name", .str "compute_totals")]])]

/-- A dependency record list for `build_functions_with_dependencies`
witnesses: two tables for `public.f`, one duplicated. -/
def exDeps : List JVal :=
  [JVal.mkObj [("function_name", .str "f"), ("referenced_table", .str "b")],
   JVal.mkObj [("function_name", .str "f"), ("referenced_table", .str "a")],
   JVal.mkObj [("function_name", .str "f"), ("referenced_table", .str "a")]]

/-- A function record list for `build_functions_with_dependencies`
witnesses: `public.f` has dependency records, `public.g` has none. -/
def exFns : List JVal :=
  [JVal.mkObj [("function_name", .str "f")],
   JVal.mkObj [("function_name", .str "g")]]

/-! ### Helper lemmas about the two branches of the node loop -/

theorem pyTruthy_str_iff (t : String) : pyTruthy (.str t) = true ↔ t ≠ "" := by
  unfold pyTruthy
  rw [Bool.not_eq_true', ← Bool.not_eq_true]
  exact not_congr (String.isEmpty_iff t)

theorem pyOr_falsy (a b : JVal) (h : pyTruthy a = false) : pyOr a b = b := by
  unfold pyOr
  simp [h]

theorem mem_ite_insert (c : Prop) [Decidable c] (x v : JVal) (s : Finset JVal) :
    v ∈ (if c then insert x s else s) ↔ v ∈ s ∨ (c ∧ v = x) := by
  split_ifs with h <;> simp [Finset.mem_insert] <;> tauto

theorem http_branch_fst (nt : String) (p : JVal) (acc : UsageSets) :
    (http_branch nt p acc).1 = acc.1 := by
  unfold http_branch
  by_cases h : (strContains nt "httprequest" || strContains nt "http") = true <;>
    cases hm : rpcSearch (urlChars (get_value (jgetD p "url" (.str "")))) <;>
    simp [h, hm]

theorem http_branch_snd (nt : String) (p : JVal) (acc : UsageSets) :
    (http_branch nt p acc).2 =
      if (strContains nt "httprequest" || strContains nt "http") = true then
        (rpcSearch (urlChars (get_value (jgetD p "url" (.str ""))))).elim acc.2
          (fun f => insert (.str f) acc.2)
      else acc.2 := by
  unfold http_branch
  by_cases h : (strContains nt "httprequest" || strContains nt "http") = true <;>
    cases hm : rpcSearch (urlChars (get_value (jgetD p "url" (.str "")))) <;>
    simp [h, hm]

theorem mem_http_branch_snd (nt : String) (p : JVal) (acc : UsageSets)
    (v : JVal) :
    v ∈ (http_branch nt p acc).2 ↔ v ∈ acc.2 ∨
      ((strContains nt "httprequest" || strContains nt "http") = true ∧
        ∃ f, rpcSearch (urlChars (get_value (jgetD p "url" (.str "")))) = some f ∧
          v = .str f) := by
  rw [http_branch_snd]
  by_cases h : (strContains nt "httprequest" || strContains nt "http") = true
  · cases hm : rpcSearch (urlChars (get_value (jgetD p "url" (.str "")))) with
    | none => simp [h, hm]
    | some f =>
        simp only [h, hm, if_true, Option.elim, Finset.mem_insert, true_and]
        constructor
        · rintro (rfl | hv)
          · exact Or.inr ⟨f, rfl, rfl⟩
          · exact Or.inl hv
        · rintro (hv | ⟨g, hg, rfl⟩)
          · exact Or.inr hv
          · injection hg with hg
            rw [hg]
            exact Or.inl rfl
  · simp [h]

theorem supabase_branch_fst (nt : String) (p : JVal) (acc : UsageSets) :
    (supabase_branch nt p acc).1 =
      if strContains nt "supabase" = true ∧
          pyTruthy (get_value (jget p "tableName")) = true ∧
          get_value (jget p "tableName") ≠ .str "Supabase" then
        insert (get_value (jget p "tableName")) acc.1
      else acc.1 := by
  unfold supabase_branch
  by_cases h1 : strContains nt "supabase" = true
  · by_cases h2 : pyTruthy (get_value (jget p "tableName")) = true ∧
        get_value (jget p "tableName") ≠ .str "Supabase"
    · by_cases h3 : get_value (jget p "operation") = .str "call" <;>
        by_cases h4 : pyTruthy (get_value (pyOr (jget p "functionName")
          (jget p "rpc"))) = true <;>
        simp [h1, h2, h3, h4]
    · by_cases h3 : get_value (jget p "operation") = .str "call" <;>
        by_cases h4 : pyTruthy (get_value (pyOr (jget p "functionName")
          (jget p "rpc"))) = true <;>
        simp [h1, h2, h3, h4]
  · simp [h1]

theorem supabase_branch_snd (nt : String) (p : JVal) (acc : UsageSets) :
    (supabase_branch nt p acc).2 =
      if strContains nt "supabase" = true ∧
          get_value (jget p "operation") = .str "call" ∧
          pyTruthy (get_value (pyOr (jget p "functionName") (jget p "rpc"))) =
            true then
        insert (get_value (pyOr (jget p "functionName") (jget p "rpc"))) acc.2
      else acc.2 := by
  unfold supabase_branch
  by_cases h1 : strContains nt "supabase" = true <;>
    by_cases h2 : pyTruthy (get_value (jget p "tableName")) = true ∧
      get_value (jget p "tableName") ≠ .str "Supabase" <;>
    by_cases h3 : get_value (jget p "operation") = .str "call" <;>
    by_cases h4 : pyTruthy (get_value (pyOr (jget p "functionName")
      (jget p "rpc"))) = true <;>
    simp [h1, h2, h3, h4]

theorem mem_supabase_branch_snd (nt : String) (p : JVal) (acc : UsageSets)
    (v : JVal) :
    v ∈ (supabase_branch nt p acc).2 ↔ v ∈ acc.2 ∨
      (strContains nt "supabase" = true ∧
        get_value (jget p "operation") = .str "call" ∧
        get_value (pyOr (jget p "functionName") (jget p "rpc")) = v ∧
        pyTruthy v = true) := by
  rw [supabase_branch_snd, mem_ite_insert]
  constructor
  · rintro (hv | ⟨⟨ha, hb, hc⟩, rfl⟩)
    · exact Or.inl hv
    · exact Or.inr ⟨ha, hb, rfl, hc⟩
  · rintro (hv | ⟨ha, hb, rfl, hc⟩)
    · exact Or.inl hv
    · exact Or.inr ⟨⟨ha, hb, hc⟩, rfl⟩

theorem mem_supabase_branch_fst (nt : String) (p : JVal) (acc : UsageSets)
    (v : JVal) :
    v ∈ (supabase_branch nt p acc).1 ↔ v ∈ acc.1 ∨
      (strContains nt "supabase" = true ∧
        get_value (jget p "tableName") = v ∧
        pyTruthy v = true ∧ v ≠ .str "Supabase") := by
  rw [supabase_branch_fst, mem_ite_insert]
  constructor
  · rintro (hv | ⟨⟨ha, hb, hc⟩, rfl⟩)
    · exact Or.inl hv
    · exact Or.inr ⟨ha, rfl, hb, hc⟩
  · rintro (hv | ⟨ha, rfl, hb, hc⟩)
    · exact Or.inl hv
    · exact Or.inr ⟨⟨ha, hb, hc⟩, rfl⟩

/-! ### Membership characterisation of the extractor -/

theorem mem_process_node_fst (node : JVal) (acc : UsageSets) (v : JVal) :
    v ∈ (process_node node acc).1 ↔ v ∈ acc.1 ∨ AddsTable node v := by
  unfold process_node AddsTable node_params
  rw [http_branch_fst, mem_supabase_branch_fst]

theorem mem_process_node_snd (node : JVal) (acc : UsageSets) (v : JVal) :
    v ∈ (process_node node acc).2 ↔
      v ∈ acc.2 ∨ AddsFunctionRpc node v ∨ AddsFunctionHttp node v := by
  unfold process_node AddsFunctionRpc AddsFunctionHttp node_params
  rw [mem_http_branch_snd, mem_supabase_branch_snd]
  tauto

theorem mem_foldl_nodes_fst (nodes : List JVal) (acc : UsageSets) (v : JVal) :
    v ∈ (nodes.foldl (fun acc node => process_node node acc) acc).1 ↔
      v ∈ acc.1 ∨ ∃ n ∈ nodes, AddsTable n v := by
  induction nodes generalizing acc with
  | nil => simp
  | cons n ns ih =>
      rw [List.foldl_cons, ih, mem_process_node_fst]
      simp only [List.mem_cons]
      constructor
      · rintro (⟨hv | ha⟩ | ⟨m, hm, ha⟩)
        · exact Or.inl hv
        · exact Or.inr ⟨n, Or.inl rfl, ha⟩
        · exact Or.inr ⟨m, Or.inr hm, ha⟩
      · rintro (hv | ⟨m, rfl | hm, ha⟩)
        · exact Or.inl (Or.inl hv)
        · exact Or.inl (Or.inr ha)
        · exact Or.inr ⟨m, hm, ha⟩

theorem mem_foldl_nodes_snd (nodes : List JVal) (acc : UsageSets) (v : JVal) :
    v ∈ (nodes.foldl (fun acc node => process_node node acc) acc).2 ↔
      v ∈ acc.2 ∨ ∃ n ∈ nodes, AddsFunctionRpc n v ∨ AddsFunctionHttp n v := by
  induction nodes generalizing acc with
  | nil => simp
  | cons n ns ih =>
      rw [List.foldl_cons, ih, mem_process_node_snd]
      simp only [List.mem_cons]
      constructor
      · rintro (⟨hv | ha⟩ | ⟨m, hm, ha⟩)
        · exact Or.inl hv
        · exact Or.inr ⟨n, Or.inl rfl, ha⟩
        · exact Or.inr ⟨m, Or.inr hm, ha⟩
      · rintro (hv | ⟨m, rfl | hm, ha⟩)
        · exact Or.inl (Or.inl hv)
        · exact Or.inl (Or.inr ha)
        · exact Or.inr ⟨m, hm, ha⟩

theorem mem_extract_fst (workflows : List JVal) (v : JVal) :
    v ∈ (extract_supabase_references_from_workflows workflows).1 ↔
      ∃ wf ∈ workflows, ∃ n ∈ nodes_of wf, AddsTable n v := by
  unfold extract_supabase_references_from_workflows
  have key : ∀ (wfs : List JVal) (acc : UsageSets),
      v ∈ (wfs.foldl (fun acc workflow =>
        (nodes_of workflow).foldl (fun acc node => process_node node acc) acc)
          acc).1 ↔
        v ∈ acc.1 ∨ ∃ wf ∈ wfs, ∃ n ∈ nodes_of wf, AddsTable n v := by
    intro wfs
    induction wfs with
    | nil => simp
    | cons w ws ih =>
        intro acc
        rw [List.foldl_cons, ih, mem_foldl_nodes_fst]
        simp only [List.mem_cons]
        constructor
        · rintro (⟨hv | ha⟩ | ⟨m, hm, ha⟩)
          · exact Or.inl hv
          · exact Or.inr ⟨w, Or.inl rfl, ha⟩
          · exact Or.inr ⟨m, Or.inr hm, ha⟩
        · rintro (hv | ⟨m, rfl | hm, ha⟩)
          · exact Or.inl (Or.inl hv)
          · exact Or.inl (Or.inr ha)
          · exact Or.inr ⟨m, hm, ha⟩
  rw [key]
  simp

theorem mem_extract_snd (workflows : List JVal) (v : JVal) :
    v ∈ (extract_supabase_references_from_workflows workflows).2 ↔
      ∃ wf ∈ workflows, ∃ n ∈ nodes_of wf,
        AddsFunctionRpc n v ∨ AddsFunctionHttp n v := by
  unfold extract_supabase_references_from_workflows
  have key : ∀ (wfs : List JVal) (acc : UsageSets),
      v ∈ (wfs.foldl (fun acc workflow =>
        (nodes_of workflow).foldl (fun acc node => process_node node acc) acc)
          acc).2 ↔
        v ∈ acc.2 ∨ ∃ wf ∈ wfs, ∃ n ∈ nodes_of wf,
          AddsFunctionRpc n v ∨ AddsFunctionHttp n v := by
    intro wfs
    induction wfs with
    | nil => simp
    | cons w ws ih =>
        intro acc
        rw [List.foldl_cons, ih, mem_foldl_nodes_snd]
        simp only [List.mem_cons]
        constructor
        · rintro (⟨hv | ha⟩ | ⟨m, hm, ha⟩)
          · exact Or.inl hv
          · exact Or.inr ⟨w, Or.inl rfl, ha⟩
          · exact Or.inr ⟨m, Or.inr hm, ha⟩
        · rintro (hv | ⟨m, rfl | hm, ha⟩)
          · exact Or.inl (Or.inl hv)
          · exact Or.inl (Or.inr ha)
          · exact Or.inr ⟨m, hm, ha⟩
  rw [key]
  simp

theorem JFields.find_snoc :
    ∀ (fs : JFields) (k k' : String) (v : JVal),
    (fs.snoc k' v).find k =
      match fs.find k with
      | some x => some x
      | none => if k' = k then some v else none
  | .nil, k, k', v => by simp [JFields.snoc, JFields.find]
  | .cons k1 v1 rest, k, k', v => by
      by_cases h : k1 = k <;>
        simp [JFields.snoc, JFields.find, h, JFields.find_snoc rest k k' v]

/-! ### The regex search, characterised -/

theorem rpcMatchesAt_succ_cons (c : Char) (s : List Char) (i : Nat) :
    RpcMatchesAt (c :: s) (i + 1) ↔ RpcMatchesAt s i := by
  unfold RpcMatchesAt
  have h5 : i + 1 + 5 = (i + 5) + 1 := by omega
  rw [List.drop_succ_cons, h5, List.drop_succ_cons]

theorem rpcCaptureAt_succ_cons (c : Char) (s : List Char) (i : Nat) :
    rpcCaptureAt (c :: s) (i + 1) = rpcCaptureAt s i := by
  unfold rpcCaptureAt
  have h5 : i + 1 + 5 = (i + 5) + 1 := by omega
  rw [h5, List.drop_succ_cons]

theorem rpcSearch_shift_iff (c : Char) (rest : List Char) (f : String)
    (hnoM0 : ¬ RpcMatchesAt (c :: rest) 0)
    (ih : rpcSearch rest = some f ↔
      ∃ i, RpcMatchesAt rest i ∧ (∀ j, j < i → ¬ RpcMatchesAt rest j) ∧
        f = String.mk (rpcCaptureAt rest i)) :
    rpcSearch rest = some f ↔
      ∃ i, RpcMatchesAt (c :: rest) i ∧
        (∀ j, j < i → ¬ RpcMatchesAt (c :: rest) j) ∧
        f = String.mk (rpcCaptureAt (c :: rest) i) := by
  rw [ih]
  constructor
  · rintro ⟨i, hi, hl, hc⟩
    refine ⟨i + 1, (rpcMatchesAt_succ_cons c rest i).mpr hi, ?_, ?_⟩
    · intro j hj
      cases j with
      | zero => exact hnoM0
      | succ j1 =>
          intro hM
          exact hl j1 (by omega) ((rpcMatchesAt_succ_cons c rest j1).mp hM)
    · rw [rpcCaptureAt_succ_cons]
      exact hc
  · rintro ⟨i, hi, hl, hc⟩
    cases i with
    | zero => exact absurd hi hnoM0
    | succ i1 =>
        refine ⟨i1, (rpcMatchesAt_succ_cons c rest i1).mp hi, ?_, ?_⟩
        · intro j hj hM
          exact hl (j + 1) (by omega) ((rpcMatchesAt_succ_cons c rest j).mpr hM)
        · rw [rpcCaptureAt_succ_cons] at hc
          exact hc

theorem rpcSearch_eq_some_iff :
    ∀ (s : List Char) (f : String),
    rpcSearch s = some f ↔
      ∃ i, RpcMatchesAt s i ∧ (∀ j, j < i → ¬ RpcMatchesAt s j) ∧
        f = String.mk (rpcCaptureAt s i)
  | [], f => by
      constructor
      · intro h
        exact absurd h (by simp [rpcSearch])
      · rintro ⟨i, ⟨h1, -⟩, -, -⟩
        rw [List.drop_nil] at h1
        exact absurd h1 (by decide)
  | c :: rest, f => by
      by_cases h0 : startsWithList "/rpc/".toList (c :: rest) = true
      · cases hdrop : (c :: rest).drop 5 with
        | nil =>
            have hnoM0 : ¬ RpcMatchesAt (c :: rest) 0 := by
              rintro ⟨-, d, hd, -⟩
              rw [Nat.zero_add, hdrop] at hd
              exact Option.noConfusion hd
            have hred : rpcSearch (c :: rest) = rpcSearch rest := by
              rw [rpcSearch, if_pos h0, hdrop]
            rw [hred]
            exact rpcSearch_shift_iff c rest f hnoM0
              (rpcSearch_eq_some_iff rest f)
        | cons d ds =>
            by_cases hd : isIdentStart d = true
            · have hM0 : RpcMatchesAt (c :: rest) 0 := by
                refine ⟨by rw [List.drop_zero]; exact h0, d, ?_, hd⟩
                rw [Nat.zero_add, hdrop]
                rfl
              have hred : rpcSearch (c :: rest) =
                  some (String.mk ((d :: ds).takeWhile isIdentChar)) := by
                rw [rpcSearch, if_pos h0, hdrop]
                exact if_pos hd
              have hcap : rpcCaptureAt (c :: rest) 0 =
                  (d :: ds).takeWhile isIdentChar := by
                unfold rpcCaptureAt
                rw [Nat.zero_add, hdrop]
              rw [hred]
              constructor
              · intro he
                injection he with he
                exact ⟨0, hM0, fun j hj => absurd hj (by omega),
                  by rw [← he, hcap]⟩
              · rintro ⟨i, hi, hl, hc⟩
                have hi0 : i = 0 := by
                  by_contra hne
                  exact hl 0 (Nat.pos_of_ne_zero hne) hM0
                subst hi0
                rw [hc, hcap]
            · have hnoM0 : ¬ RpcMatchesAt (c :: rest) 0 := by
                rintro ⟨-, e, he, hie⟩
                rw [Nat.zero_add, hdrop] at he
                injection he with he
                rw [← he] at hie
                exact hd hie
              have hred : rpcSearch (c :: rest) = rpcSearch rest := by
                rw [rpcSearch, if_pos h0, hdrop]
                exact if_neg hd
              rw [hred]
              exact rpcSearch_shift_iff c rest f hnoM0
                (rpcSearch_eq_some_iff rest f)
      · have hnoM0 : ¬ RpcMatchesAt (c :: rest) 0 := by
          rintro ⟨h1, -⟩
          rw [List.drop_zero] at h1
          exact h0 h1
        have hred : rpcSearch (c :: rest) = rpcSearch rest := by
          rw [rpcSearch, if_neg h0]
        rw [hred]
        exact rpcSearch_shift_iff c rest f hnoM0 (rpcSearch_eq_some_iff rest f)

theorem identStart_identChar {d : Char} (h : isIdentStart d = true) :
    isIdentChar d = true := by
  unfold isIdentStart at h
  unfold isIdentChar Char.isAlphanum
  rw [Bool.or_eq_true] at h
  rcases h with ha | hu
  · simp [ha]
  · simp [hu]

theorem head?_dropWhile_false {α : Type} (p : α → Bool) :
    ∀ (l : List α) (x : α), (l.dropWhile p).head? = some x → p x = false
  | [], x => by intro h; exact Option.noConfusion h
  | a :: t, x => by
      intro h
      cases hp : p a with
      | true =>
          rw [List.dropWhile_cons_of_pos hp] at h
          exact head?_dropWhile_false p t x h
      | false =>
          rw [List.dropWhile_cons_of_neg (by simp [hp])] at h
          injection h with h
          rw [← h]
          exact hp

/-! ### The dependency map, characterised -/

theorem mem_dep_map (dependencies : List JVal) (key : JVal × JVal)
    (s : String) :
    s ∈ dep_map dependencies key ↔
      ∃ dep ∈ dependencies, pyTruthy (jget dep "referenced_table") = true ∧
        dep_key dep = key ∧ jvalStr (jget dep "referenced_table") = s := by
  have aux : ∀ (deps : List JVal) (m : JVal × JVal → Finset String),
      s ∈ (deps.foldl
        (fun m dep =>
          let table_name := jget dep "referenced_table"
          if pyTruthy table_name then
            fun key =>
              if key = dep_key dep then insert (jvalStr table_name) (m key)
              else m key
          else m)
        m) key ↔
        s ∈ m key ∨ ∃ dep ∈ deps,
          pyTruthy (jget dep "referenced_table") = true ∧
          dep_key dep = key ∧ jvalStr (jget dep "referenced_table") = s := by
    intro deps
    induction deps with
    | nil => simp
    | cons dep rest ih =>
        intro m
        rw [List.foldl_cons, ih]
        simp only [List.mem_cons]
        by_cases htr : pyTruthy (jget dep "referenced_table") = true
        · by_cases hk : key = dep_key dep
          · simp only [htr, if_true, hk, if_pos rfl, Finset.mem_insert]
            constructor
            · rintro (⟨rfl | hm⟩ | ⟨d, hd, hp⟩)
              · exact Or.inr ⟨dep, Or.inl rfl, htr, rfl, rfl⟩
              · exact Or.inl hm
              · exact Or.inr ⟨d, Or.inr hd, hp⟩
            · rintro (hm | ⟨d, rfl | hd, hp⟩)
              · exact Or.inl (Or.inr hm)
              · exact Or.inl (Or.inl hp.2.2.symm)
              · exact Or.inr ⟨d, hd, hp⟩
          · simp only [htr, if_true, if_neg hk]
            constructor
            · rintro (hm | ⟨d, hd, hp⟩)
              · exact Or.inl hm
              · exact Or.inr ⟨d, Or.inr hd, hp⟩
            · rintro (hm | ⟨d, rfl | hd, hp⟩)
              · exact Or.inl hm
              · exact absurd hp.2.1.symm hk
              · exact Or.inr ⟨d, hd, hp⟩
        · simp only [htr, if_false]
          constructor
          · rintro (hm | ⟨d, hd, hp⟩)
            · exact Or.inl hm
            · exact Or.inr ⟨d, Or.inr hd, hp⟩
          · rintro (hm | ⟨d, rfl | hd, hp⟩)
            · exact Or.inl hm
            · exact absurd hp.1 htr
            · exact Or.inr ⟨d, hd, hp⟩
  unfold dep_map
  rw [aux]
  simp

theorem dep_map_perm (dependencies dependencies' : List JVal)
    (h : dependencies.Perm dependencies') :
    dep_map dependencies = dep_map dependencies' := by
  funext key
  refine Finset.ext fun s => ?_
  rw [mem_dep_map, mem_dep_map]
  constructor
  · rintro ⟨d, hd, hp⟩
    exact ⟨d, h.mem_iff.mp hd, hp⟩
  · rintro ⟨d, hd, hp⟩
    exact ⟨d, h.mem_iff.mpr hd, hp⟩

theorem extract_perm (ws ws' : List JVal) (h : ws.Perm ws') :
    extract_supabase_references_from_workflows ws =
      extract_supabase_references_from_workflows ws' := by
  have e1 : (extract_supabase_references_from_workflows ws).1 =
      (extract_supabase_references_from_workflows ws').1 := by
    refine Finset.ext fun v => ?_
    rw [mem_extract_fst, mem_extract_fst]
    constructor
    · rintro ⟨wf, hwf, r⟩
      exact ⟨wf, h.mem_iff.mp hwf, r⟩
    · rintro ⟨wf, hwf, r⟩
      exact ⟨wf, h.mem_iff.mpr hwf, r⟩
  have e2 : (extract_supabase_references_from_workflows ws).2 =
      (extract_supabase_references_from_workflows ws').2 := by
    refine Finset.ext fun v => ?_
    rw [mem_extract_snd, mem_extract_snd]
    constructor
    · rintro ⟨wf, hwf, r⟩
      exact ⟨wf, h.mem_iff.mp hwf, r⟩
    · rintro ⟨wf, hwf, r⟩
      exact ⟨wf, h.mem_iff.mpr hwf, r⟩
  exact Prod.ext e1 e2

theorem merge_main_metadata_eq (w : List JVal) (c : JVal) (now : String) :
    (merge_main w c now).metadata =
      ⟨now, w.length,
        (jitems (jgetD c "tables" (JVal.mkArr []))).length,
        (jitems (jgetD c "functions" (JVal.mkArr []))).length,
        (extract_supabase_references_from_workflows w).1.card,
        (extract_supabase_references_from_workflows w).2.card⟩ := by
  show Metadata.mk _ _ _ _ _ _ = _
  rw [List.length_map, List.length_map]

/-! ### Claim theorems -/

/-- C1: for every sequence of workflows, a value is a member of the
returned `tables_used` set iff some supabase-typed node (normalized type
containing "supabase") resolves `parameters.tableName` to it, the
resolution is truthy and differs from the literal string "Supabase";
specialised to string resolutions, membership holds iff the resolved
string is non-empty and not "Supabase"; in particular the string
"Supabase" is never a member of the returned set. -/
theorem extract_tables_used_iff (workflows : List JVal) :
    (∀ v : JVal,
      v ∈ (extract_supabase_references_from_workflows workflows).1 ↔
        ∃ wf ∈ workflows, ∃ n ∈ nodes_of wf,
          strContains (node_type_of n) "supabase" = true ∧
          get_value (jget (node_params n) "tableName") = v ∧
          pyTruthy v = true ∧ v ≠ .str "Supabase") ∧
    (∀ t : String,
      JVal.str t ∈ (extract_supabase_references_from_workflows workflows).1 ↔
        ∃ wf ∈ workflows, ∃ n ∈ nodes_of wf,
          strContains (node_type_of n) "supabase" = true ∧
          get_value (jget (node_params n) "tableName") = .str t ∧
          t ≠ "" ∧ t ≠ "Supabase") ∧
    JVal.str "Supabase" ∉
      (extract_supabase_references_from_workflows workflows).1 := by
  refine ⟨fun v => mem_extract_fst workflows v, fun t => ?_, fun hmem => ?_⟩
  · rw [mem_extract_fst]
    constructor
    · rintro ⟨wf, hwf, n, hn, ha, hb, hc, hd⟩
      exact ⟨wf, hwf, n, hn, ha, hb, (pyTruthy_str_iff t).mp hc,
        fun he => hd (by rw [he])⟩
    · rintro ⟨wf, hwf, n, hn, ha, hb, hc, hd⟩
      refine ⟨wf, hwf, n, hn, ha, hb, (pyTruthy_str_iff t).mpr hc, fun he => ?_⟩
      injection he with he
      exact hd he
  · rw [mem_extract_fst] at hmem
    obtain ⟨wf, hwf, n, hn, ha, hb, hc, hd⟩ := hmem
    exact hd rfl

/-- C2: for every node whose normalized type contains "httprequest" or
"http", the HTTP branch resolves `parameters.url` (defaulting to the
empty string), searches it once for `/rpc/` followed by an identifier
`[a-zA-Z_][a-zA-Z0-9_]*`, and on a match adds exactly the captured
identifier of the leftmost match; `rpcSearch` is exactly that
leftmost-match search, its capture starts with `[a-zA-Z_]`, consists of
identifier characters and is maximal; the example URL contributes
"compute_totals" to `functions_used`. -/
theorem http_rpc_extraction :
    (∀ (nt : String) (p : JVal) (acc : UsageSets),
      (strContains nt "httprequest" || strContains nt "http") = true →
      ∀ v : JVal, v ∈ (http_branch nt p acc).2 ↔ v ∈ acc.2 ∨
        ∃ f, rpcSearch (urlChars (get_value (jgetD p "url" (.str "")))) =
            some f ∧ v = .str f) ∧
    (∀ (s : List Char) (f : String),
      rpcSearch s = some f ↔
        ∃ i, RpcMatchesAt s i ∧ (∀ j, j < i → ¬ RpcMatchesAt s j) ∧
          f = String.mk (rpcCaptureAt s i)) ∧
    (∀ (s : List Char) (i : Nat), RpcMatchesAt s i →
      ∃ (d : Char) (t : List Char), rpcCaptureAt s i = d :: t ∧
        isIdentStart d = true ∧
        (∀ e ∈ rpcCaptureAt s i, isIdentChar e = true) ∧
        ∀ x, ((s.drop (i + 5)).dropWhile isIdentChar).head? = some x →
          isIdentChar x = false) ∧
    rpcSearch "https://x/rest/v1/rpc/compute_totals?x=1".toList =
      some "compute_totals" ∧
    JVal.str "compute_totals" ∈
      (extract_supabase_references_from_workflows [exHttpWorkflow]).2 := by
  refine ⟨?_, rpcSearch_eq_some_iff, ?_, by decide, ?_⟩
  · intro nt p acc hhttp v
    rw [mem_http_branch_snd]
    simp [hhttp]
  · rintro s i ⟨-, d, hd, hid⟩
    obtain ⟨t, ht⟩ : ∃ t, s.drop (i + 5) = d :: t := by
      cases hc : s.drop (i + 5) with
      | nil => rw [hc] at hd; exact Option.noConfusion hd
      | cons e t =>
          rw [hc] at hd
          injection hd with hd
          exact ⟨t, by rw [← hd]⟩
    refine ⟨d, (d :: t).tail.takeWhile isIdentChar, ?_, hid, ?_, ?_⟩
    · unfold rpcCaptureAt
      rw [ht]
      rw [List.takeWhile_cons_of_pos (identStart_identChar hid)]
      rfl
    · intro e he
      exact List.mem_takeWhile_imp he
    · intro x hx
      exact head?_dropWhile_false isIdentChar _ x hx
  · refine (mem_extract_snd [exHttpWorkflow] _).mpr
      ⟨exHttpWorkflow, by decide, exHttpNode, by decide,
        Or.inr ⟨by decide, "compute_totals", by decide, rfl⟩⟩

/-- C4 counterexample: the report is not invariant under permutation of
the catalog's tables ordering: `exCatalogSwapped` lists the same two
tables as `exCatalog` in the opposite order (functions identical), yet
the two reports differ (their `supabase.tables` lists are permuted, not
equal). -/
theorem merge_main_catalog_order_counterexample :
    (jitems (jgetD exCatalog "tables" (JVal.mkArr []))).Perm
      (jitems (jgetD exCatalogSwapped "tables" (JVal.mkArr []))) ∧
    jgetD exCatalog "functions" (JVal.mkArr []) =
      jgetD exCatalogSwapped "functions" (JVal.mkArr []) ∧
    merge_main [] exCatalog "ts" ≠ merge_main [] exCatalogSwapped "ts" := by
  refine ⟨?_, by decide, by decide⟩
  have h1 : jitems (jgetD exCatalog "tables" (JVal.mkArr [])) =
      [JVal.mkObj [("name", .str "orders")],
       JVal.mkObj [("name", .str "users"), ("schema", .str "audit")]] := by
    decide
  have h2 : jitems (jgetD exCatalogSwapped "tables" (JVal.mkArr [])) =
      [JVal.mkObj [("name", .str "users"), ("schema", .str "audit")],
       JVal.mkObj [("name", .str "orders")]] := by
    decide
  rw [h1, h2]
  exact List.Perm.swap _ _ _

/-- C4 (amended): the report is invariant under permutation of the
workflow ordering except for the verbatim pass-through `workflows`
field; permuting the catalog's tables/functions lists leaves the
metadata unchanged and permutes the enriched `supabase.tables` and
`supabase.functions` lists correspondingly (same entries, reordered). -/
theorem merge_main_permutation (ws ws' : List JVal) (sd sd' : JVal)
    (now : String) (hw : ws.Perm ws')
    (ht : (jitems (jgetD sd "tables" (JVal.mkArr []))).Perm
      (jitems (jgetD sd' "tables" (JVal.mkArr []))))
    (hf : (jitems (jgetD sd "functions" (JVal.mkArr []))).Perm
      (jitems (jgetD sd' "functions" (JVal.mkArr [])))) :
    (merge_main ws sd now).workflows = ws ∧
    (merge_main ws' sd' now).workflows = ws' ∧
    (merge_main ws sd now).metadata = (merge_main ws' sd' now).metadata ∧
    (merge_main ws sd now).supabase_tables =
      (merge_main ws' sd now).supabase_tables ∧
    (merge_main ws sd now).supabase_functions =
      (merge_main ws' sd now).supabase_functions ∧
    (merge_main ws sd now).supabase_tables.Perm
      ((merge_main ws' sd' now).supabase_tables) ∧
    (merge_main ws sd now).supabase_functions.Perm
      ((merge_main ws' sd' now).supabase_functions) := by
  have hE := extract_perm ws ws' hw
  refine ⟨rfl, rfl, ?_, ?_, ?_, ?_, ?_⟩
  · rw [merge_main_metadata_eq, merge_main_metadata_eq, hw.length_eq,
      ht.length_eq, hf.length_eq, hE]
  · show (jitems (jgetD sd "tables" (JVal.mkArr []))).map
      (enrich_table (extract_supabase_references_from_workflows ws).1) = _
    rw [hE]
    rfl
  · show (jitems (jgetD sd "functions" (JVal.mkArr []))).map
      (enrich_function (extract_supabase_references_from_workflows ws).2) = _
    rw [hE]
    rfl
  · show ((jitems (jgetD sd "tables" (JVal.mkArr []))).map
      (enrich_table (extract_supabase_references_from_workflows ws).1)).Perm _
    rw [hE]
    exact ht.map _
  · show ((jitems (jgetD sd "functions" (JVal.mkArr []))).map
      (enrich_function
        (extract_supabase_references_from_workflows ws).2)).Perm _
    rw [hE]
    exact hf.map _

/-- C4 witness: the hypotheses and two conclusions of the amended claim
at concrete permuted inputs. -/
theorem merge_main_permutation_witness :
    ([exWorkflow, exHttpWorkflow] : List JVal).Perm
      [exHttpWorkflow, exWorkflow] ∧
    (jitems (jgetD exCatalog "tables" (JVal.mkArr []))).Perm
      (jitems (jgetD exCatalogSwapped "tables" (JVal.mkArr []))) ∧
    (jitems (jgetD exCatalog "functions" (JVal.mkArr []))).Perm
      (jitems (jgetD exCatalogSwapped "functions" (JVal.mkArr []))) ∧
    (merge_main [exWorkflow, exHttpWorkflow] exCatalog "ts").metadata =
      (merge_main [exHttpWorkflow, exWorkflow] exCatalogSwapped "ts").metadata ∧
    (merge_main [exWorkflow, exHttpWorkflow] exCatalog
        "ts").supabase_tables.Perm
      ((merge_main [exHttpWorkflow, exWorkflow] exCatalogSwapped
        "ts").supabase_tables) := by
  have hw : ([exWorkflow, exHttpWorkflow] : List JVal).Perm
      [exHttpWorkflow, exWorkflow] := List.Perm.swap _ _ _
  have ht : (jitems (jgetD exCatalog "tables" (JVal.mkArr []))).Perm
      (jitems (jgetD exCatalogSwapped "tables" (JVal.mkArr []))) := by
    have h1 : jitems (jgetD exCatalog "tables" (JVal.mkArr [])) =
        [JVal.mkObj [("name", .str "orders")],
         JVal.mkObj [("name", .str "users"), ("schema", .str "audit")]] := by
      decide
    have h2 : jitems (jgetD exCatalogSwapped "tables" (JVal.mkArr [])) =
        [JVal.mkObj [("name", .str "users"), ("schema", .str "audit")],
         JVal.mkObj [("name", .str "orders")]] := by
      decide
    rw [h1, h2]
    exact List.Perm.swap _ _ _
  have hf : (jitems (jgetD exCatalog "functions" (JVal.mkArr []))).Perm
      (jitems (jgetD exCatalogSwapped "functions" (JVal.mkArr []))) := by
    have heq : jitems (jgetD exCatalog "functions" (JVal.mkArr [])) =
        jitems (jgetD exCatalogSwapped "functions" (JVal.mkArr [])) := by
      decide
    rw [heq]
  refine ⟨hw, ht, hf, ?_, ?_⟩
  · exact (merge_main_permutation [exWorkflow, exHttpWorkflow]
      [exHttpWorkflow, exWorkflow] exCatalog exCatalogSwapped "ts"
      hw ht hf).2.2.1
  · exact (merge_main_permutation [exWorkflow, exHttpWorkflow]
      [exHttpWorkflow, exWorkflow] exCatalog exCatalogSwapped "ts"
      hw ht hf).2.2.2.2.2.1

/-- C5: reconciling a catalog with an empty workflow collection marks
every table and every function as unused and reports zero used tables
and zero used functions in the metadata. -/
theorem merge_main_empty_workflows_unused (supabase_data : JVal) (now : String)
    (hne : jitems (jgetD supabase_data "tables" (JVal.mkArr [])) ≠ [] ∨
      jitems (jgetD supabase_data "functions" (JVal.mkArr [])) ≠ []) :
    (∀ t ∈ (merge_main [] supabase_data now).supabase_tables,
      t.used_by_n8n = false) ∧
    (∀ f ∈ (merge_main [] supabase_data now).supabase_functions,
      f.used_by_n8n = false) ∧
    (merge_main [] supabase_data now).metadata.tables_used_by_n8n = 0 ∧
    (merge_main [] supabase_data now).metadata.functions_used_by_n8n = 0 := by
  have hext : extract_supabase_references_from_workflows [] =
      ((∅, ∅) : UsageSets) := rfl
  refine ⟨?_, ?_, ?_, ?_⟩
  · intro t ht
    simp only [merge_main, hext] at ht
    obtain ⟨x, hx, rfl⟩ := List.mem_map.mp ht
    simp [enrich_table]
  · intro f hf
    simp only [merge_main, hext] at hf
    obtain ⟨x, hx, rfl⟩ := List.mem_map.mp hf
    simp [enrich_function]
  · simp [merge_main, hext]
  · simp [merge_main, hext]

/-- C5 witness: the hypothesis and conclusion at the concrete non-empty
catalog `exCatalog`. -/
theorem merge_main_empty_workflows_unused_witness :
    (jitems (jgetD exCatalog "tables" (JVal.mkArr [])) ≠ [] ∨
      jitems (jgetD exCatalog "functions" (JVal.mkArr [])) ≠ []) ∧
    ((∀ t ∈ (merge_main [] exCatalog "ts").supabase_tables,
        t.used_by_n8n = false) ∧
     (∀ f ∈ (merge_main [] exCatalog "ts").supabase_functions,
        f.used_by_n8n = false) ∧
     (merge_main [] exCatalog "ts").metadata.tables_used_by_n8n = 0 ∧
     (merge_main [] exCatalog "ts").metadata.functions_used_by_n8n = 0) :=
  ⟨Or.inl (by decide),
   merge_main_empty_workflows_unused exCatalog "ts" (Or.inl (by decide))⟩

/-- C6 counterexample: an object whose cached display name is present
but equal to the empty string resolves to the raw value, not to the
present display name, refuting "its cached display name if present". -/
theorem get_value_cached_empty_counterexample :
    (JFields.ofList [("cachedResultName", .str ""), ("value", .str "x")]).find
        "cachedResultName" = some (.str "") ∧
    get_value (.obj (JFields.ofList
      [("cachedResultName", .str ""), ("value", .str "x")])) = .str "x" ∧
    JVal.str "x" ≠ JVal.str "" := by
  refine ⟨by decide, by decide, by decide⟩

/-- C6 (amended): the resource-locator resolution maps null to the
empty string, a plain string to itself, and an object to its cached
display name if present and truthy, else its raw value if truthy, else
the empty string; consequently the example node yields "orders" in
`tables_used` and "refresh_orders" in `functions_used`. -/
theorem get_value_resolution :
    get_value .null = .str "" ∧
    (∀ s : String, get_value (.str s) = .str s) ∧
    (∀ (fs : JFields) (c : JVal), fs.find "cachedResultName" = some c →
      pyTruthy c = true → get_value (.obj fs) = c) ∧
    (∀ (fs : JFields) (w : JVal),
      pyTruthy ((fs.find "cachedResultName").getD .null) = false →
      fs.find "value" = some w → pyTruthy w = true →
      get_value (.obj fs) = w) ∧
    (∀ fs : JFields,
      pyTruthy ((fs.find "cachedResultName").getD .null) = false →
      pyTruthy ((fs.find "value").getD .null) = false →
      get_value (.obj fs) = .str "") ∧
    JVal.str "orders" ∈
      (extract_supabase_references_from_workflows [exWorkflow]).1 ∧
    JVal.str "refresh_orders" ∈
      (extract_supabase_references_from_workflows [exWorkflow]).2 := by
  have hobj : ∀ fs : JFields, get_value (.obj fs) =
      pyOr ((fs.find "cachedResultName").getD .null)
        (pyOr ((fs.find "value").getD .null) (.str "")) := fun fs => rfl
  refine ⟨rfl, fun s => rfl, ?_, ?_, ?_, ?_, ?_⟩
  · intro fs c hc htr
    rw [hobj fs, hc]
    unfold pyOr
    simp [htr]
  · intro fs w hc hw htr
    rw [hobj fs, pyOr_falsy _ _ hc, hw]
    unfold pyOr
    simp [htr]
  · intro fs hc hw
    rw [hobj fs, pyOr_falsy _ _ hc, pyOr_falsy _ _ hw]
  · refine (mem_extract_fst [exWorkflow] _).mpr
      ⟨exWorkflow, by decide, exSupabaseNode, by decide, ?_, ?_, ?_, ?_⟩ <;>
      decide
  · refine (mem_extract_snd [exWorkflow] _).mpr
      ⟨exWorkflow, by decide, exSupabaseNode, by decide, Or.inl ⟨?_, ?_, ?_, ?_⟩⟩ <;>
      decide

/-- C8: the extractor is total on nodes with missing fields: a node
lacking `parameters` is processed exactly as the same node with
`parameters` bound to the empty mapping, and a node whose `type` is
absent or null (so that `node.get("type")` is `None`) matches neither
branch and leaves both usage sets unchanged. -/
theorem extractor_total_on_missing_fields :
    (∀ (fields : JFields) (acc : UsageSets),
        fields.find "parameters" = none →
        process_node (.obj fields) acc =
          process_node (.obj (fields.snoc "parameters" (JVal.obj .nil))) acc) ∧
    (∀ (node : JVal) (acc : UsageSets),
        jget node "type" = .null → process_node node acc = acc) := by
  constructor
  · intro fields acc h
    have htype : jget (JVal.obj (fields.snoc "parameters" (JVal.obj .nil)))
        "type" = jget (JVal.obj fields) "type" := by
      show (JFields.find "type" (fields.snoc "parameters" (JVal.obj .nil))).getD
          .null = (JFields.find "type" fields).getD .null
      rw [JFields.find_snoc]
      cases hf : JFields.find "type" fields with
      | none => simp
      | some x => simp
    have hparams : jgetD (JVal.obj (fields.snoc "parameters" (JVal.obj .nil)))
        "parameters" (JVal.obj .nil) =
        jgetD (JVal.obj fields) "parameters" (JVal.obj .nil) := by
      show (JFields.find "parameters"
          (fields.snoc "parameters" (JVal.obj .nil))).getD (JVal.obj .nil) =
        (JFields.find "parameters" fields).getD (JVal.obj .nil)
      rw [JFields.find_snoc, h]
      simp
    unfold process_node node_type_of
    rw [htype, hparams]
  · intro node acc h
    have hnt : node_type_of node = strLower "" := by
      unfold node_type_of
      rw [h]
      rfl
    have hsb : ∀ (p : JVal) (a : UsageSets),
        supabase_branch (strLower "") p a = a := by
      intro p a
      unfold supabase_branch
      have hc : strContains (strLower "") "supabase" = false := by decide
      simp [hc]
    have hhb : ∀ (p : JVal) (a : UsageSets),
        http_branch (strLower "") p a = a := by
      intro p a
      unfold http_branch
      have h1 : strContains (strLower "") "httprequest" = false := by decide
      have h2 : strContains (strLower "") "http" = false := by decide
      simp [h1, h2]
    show http_branch (node_type_of node)
        (jgetD node "parameters" (JVal.obj .nil))
        (supabase_branch (node_type_of node)
          (jgetD node "parameters" (JVal.obj .nil)) acc) = acc
    rw [hnt, hsb, hhb]

/-- C8 witness: both parts applied at a concrete node with no
`parameters` key and a null-free, absent `type` key. -/
theorem extractor_total_on_missing_fields_witness :
    ((JFields.cons "name" (.str "n") .nil).find "parameters" = none ∧
      process_node (.obj (JFields.cons "name" (.str "n") .nil))
          ((∅, ∅) : UsageSets) =
        process_node (.obj ((JFields.cons "name" (.str "n") .nil).snoc
          "parameters" (JVal.obj .nil))) ((∅, ∅) : UsageSets)) ∧
    (jget (JVal.obj (JFields.cons "name" (.str "n") .nil)) "type" = .null ∧
      process_node (JVal.obj (JFields.cons "name" (.str "n") .nil))
        ((∅, ∅) : UsageSets) = ((∅, ∅) : UsageSets)) :=
  ⟨⟨by decide,
    extractor_total_on_missing_fields.1 (JFields.cons "name" (.str "n") .nil)
      (∅, ∅) (by decide)⟩,
   ⟨by decide,
    extractor_total_on_missing_fields.2
      (JVal.obj (JFields.cons "name" (.str "n") .nil)) (∅, ∅) (by decide)⟩⟩

/-- C3: for every dependency list and function list, the i-th output
entry of `build_functions_with_dependencies` corresponds to the i-th
function record, carries its computed schema and name, and its
`tables_used` is the deduplicated, lexicographically sorted list of the
referenced-table names of exactly the truthy dependency records whose
(schema defaulting to "public", function name) key matches; a function
with no truthy matching record gets the empty list (not a missing
entry: output length equals input length); and the whole output is
invariant under permutation of the dependency records. -/
theorem build_functions_dependencies_spec (functions dependencies : List JVal)
    (hstr : ∀ dep ∈ dependencies,
      pyTruthy (jget dep "referenced_table") = true →
      ∃ s : String, jget dep "referenced_table" = .str s) :
    (build_functions_with_dependencies functions dependencies).length =
      functions.length ∧
    (∀ (i : Nat) (fn : JVal), functions.get? i = some fn →
      ∃ out : FunctionWithDeps,
        (build_functions_with_dependencies functions dependencies).get? i =
          some out ∧
        out.schema = fn_schema fn ∧ out.name = fn_name fn ∧
        (∀ s : String, s ∈ out.tables_used ↔ ∃ dep ∈ dependencies,
          dep_key dep = (fn_schema fn, fn_name fn) ∧
          jget dep "referenced_table" = .str s ∧ s ≠ "") ∧
        List.Sorted (· ≤ ·) out.tables_used ∧
        out.tables_used.Nodup ∧
        ((∀ dep ∈ dependencies, dep_key dep = (fn_schema fn, fn_name fn) →
            pyTruthy (jget dep "referenced_table") = false) →
          out.tables_used = [])) ∧
    (∀ dependencies' : List JVal, dependencies.Perm dependencies' →
      build_functions_with_dependencies functions dependencies =
        build_functions_with_dependencies functions dependencies') := by
  refine ⟨List.length_map _ _, ?_, ?_⟩
  · intro i fn hfn
    refine ⟨⟨fn_schema fn, fn_name fn,
        (dep_map dependencies (fn_schema fn, fn_name fn)).sort (· ≤ ·)⟩,
        ?_, rfl, rfl, ?_, ?_, ?_, ?_⟩
    · show ((functions.map _).get? i) = _
      rw [List.get?_map, hfn]
      rfl
    · intro s
      show s ∈ (dep_map dependencies (fn_schema fn, fn_name fn)).sort (· ≤ ·) ↔ _
      rw [Finset.mem_sort, mem_dep_map]
      constructor
      · rintro ⟨dep, hdep, htr, hkey, hval⟩
        obtain ⟨t, ht⟩ := hstr dep hdep htr
        rw [ht] at htr hval
        have hts : t = s := hval
        subst hts
        exact ⟨dep, hdep, hkey, ht, (pyTruthy_str_iff t).mp htr⟩
      · rintro ⟨dep, hdep, hkey, hval, hs⟩
        refine ⟨dep, hdep, ?_, hkey, ?_⟩
        · rw [hval]
          exact (pyTruthy_str_iff s).mpr hs
        · rw [hval]
          rfl
    · exact Finset.sort_sorted _ _
    · exact Finset.sort_nodup _ _
    · intro hnone
      show (dep_map dependencies (fn_schema fn, fn_name fn)).sort (· ≤ ·) = []
      have hempty : dep_map dependencies (fn_schema fn, fn_name fn) = ∅ := by
        refine Finset.eq_empty_of_forall_not_mem fun s hs => ?_
        rw [mem_dep_map] at hs
        obtain ⟨dep, hdep, htr, hkey, -⟩ := hs
        rw [hnone dep hdep hkey] at htr
        exact Bool.noConfusion htr
      rw [hempty]
      exact Finset.sort_empty _
  · intro dependencies' hperm
    unfold build_functions_with_dependencies
    rw [dep_map_perm dependencies dependencies' hperm]

/-- C3 witness: the hypothesis and the length consequence at the
concrete inputs `exFns` and `exDeps`. -/
theorem build_functions_dependencies_spec_witness :
    (∀ dep ∈ exDeps, pyTruthy (jget dep "referenced_table") = true →
      ∃ s : String, jget dep "referenced_table" = .str s) ∧
    (build_functions_with_dependencies exFns exDeps).length =
      exFns.length := by
  have h : ∀ dep ∈ exDeps, pyTruthy (jget dep "referenced_table") = true →
      ∃ s : String, jget dep "referenced_table" = .str s := by
    intro dep hdep htr
    simp only [exDeps, List.mem_cons, List.not_mem_nil, or_false] at hdep
    rcases hdep with rfl | rfl | rfl
    · exact ⟨"b", by decide⟩
    · exact ⟨"a", by decide⟩
    · exact ⟨"a", by decide⟩
  exact ⟨h, (build_functions_dependencies_spec exFns exDeps h).1⟩

/-- C7: `used_by_n8n` is bare-name membership in the usage set: the
i-th enriched entry is the enrichment of the i-th catalog entry, the
enrichment's `used_by_n8n` tests only `entry.get("name")` against the
usage set, and two entries with equal names always get the same
`used_by_n8n`, whatever their schemas. -/
theorem used_by_n8n_bare_name (ws : List JVal) (sd : JVal) (now : String) :
    (∀ (i : Nat) (t : JVal),
      (jitems (jgetD sd "tables" (JVal.mkArr []))).get? i = some t →
      (merge_main ws sd now).supabase_tables.get? i =
          some (enrich_table (extract_supabase_references_from_workflows ws).1
            t) ∧
        (enrich_table (extract_supabase_references_from_workflows ws).1
            t).used_by_n8n =
          decide (jget t "name" ∈
            (extract_supabase_references_from_workflows ws).1)) ∧
    (∀ (i : Nat) (f : JVal),
      (jitems (jgetD sd "functions" (JVal.mkArr []))).get? i = some f →
      (merge_main ws sd now).supabase_functions.get? i =
          some (enrich_function
            (extract_supabase_references_from_workflows ws).2 f) ∧
        (enrich_function (extract_supabase_references_from_workflows ws).2
            f).used_by_n8n =
          decide (jget f "name" ∈
            (extract_supabase_references_from_workflows ws).2)) ∧
    (∀ (S : Finset JVal) (t1 t2 : JVal), jget t1 "name" = jget t2 "name" →
      (enrich_table S t1).used_by_n8n = (enrich_table S t2).used_by_n8n) ∧
    (∀ (S : Finset JVal) (f1 f2 : JVal), jget f1 "name" = jget f2 "name" →
      (enrich_function S f1).used_by_n8n =
        (enrich_function S f2).used_by_n8n) := by
  refine ⟨?_, ?_, ?_, ?_⟩
  · intro i t ht
    refine ⟨?_, rfl⟩
    show ((jitems (jgetD sd "tables" (JVal.mkArr []))).map
      (enrich_table (extract_supabase_references_from_workflows ws).1)).get? i =
        _
    rw [List.get?_map, ht]
    rfl
  · intro i f hf
    refine ⟨?_, rfl⟩
    show ((jitems (jgetD sd "functions" (JVal.mkArr []))).map
      (enrich_function
        (extract_supabase_references_from_workflows ws).2)).get? i = _
    rw [List.get?_map, hf]
    rfl
  · intro S t1 t2 h
    show decide (jget t1 "name" ∈ S) = decide (jget t2 "name" ∈ S)
    rw [h]
  · intro S f1 f2 h
    show decide (jget f1 "name" ∈ S) = decide (jget f2 "name" ∈ S)
    rw [h]

/-- C9: the reconciliation core is a pure function: two runs on the same
inputs with the same clock give the same report, and two runs with
different clocks agree on everything except the generation timestamp,
which is exactly the clock value. -/
theorem merge_main_deterministic (workflows : List JVal) (supabase_data : JVal)
    (now now1 now2 : String) :
    merge_main workflows supabase_data now =
      merge_main workflows supabase_data now ∧
    (merge_main workflows supabase_data now1).workflows =
      (merge_main workflows supabase_data now2).workflows ∧
    (merge_main workflows supabase_data now1).supabase_tables =
      (merge_main workflows supabase_data now2).supabase_tables ∧
    (merge_main workflows supabase_data now1).supabase_functions =
      (merge_main workflows supabase_data now2).supabase_functions ∧
    (merge_main workflows supabase_data now1).metadata.workflow_count =
      (merge_main workflows supabase_data now2).metadata.workflow_count ∧
    (merge_main workflows supabase_data now1).metadata.table_count =
      (merge_main workflows supabase_data now2).metadata.table_count ∧
    (merge_main workflows supabase_data now1).metadata.function_count =
      (merge_main workflows supabase_data now2).metadata.function_count ∧
    (merge_main workflows supabase_data now1).metadata.tables_used_by_n8n =
      (merge_main workflows supabase_data now2).metadata.tables_used_by_n8n ∧
    (merge_main workflows supabase_data now1).metadata.functions_used_by_n8n =
      (merge_main workflows supabase_data now2).metadata.functions_used_by_n8n ∧
    (merge_main workflows supabase_data now1).metadata.generated_at = now1 :=
  ⟨rfl, rfl, rfl, rfl, rfl, rfl, rfl, rfl, rfl, rfl⟩

/-- C10: in the Supabase branch with operation "call", the fallback from
`functionName` to `rpc` is on falsiness, not key absence: `pyOr` returns
its second operand whenever the first is falsy, and a supabase node
whose `functionName` is the empty string and whose `rpc` is a non-empty
string f contributes f to `functions_used`. -/
theorem rpc_fallback_on_falsy (node : JVal) (acc : UsageSets) (f : String)
    (hsup : strContains (node_type_of node) "supabase" = true)
    (hop : get_value (jget (node_params node) "operation") = .str "call")
    (hfn : jget (node_params node) "functionName" = .str "")
    (hrpc : jget (node_params node) "rpc" = .str f)
    (hf : f ≠ "") :
    (∀ a b : JVal, pyTruthy a = false → pyOr a b = b) ∧
    JVal.str f ∈ (process_node node acc).2 := by
  refine ⟨pyOr_falsy, ?_⟩
  rw [mem_process_node_snd]
  right
  left
  refine ⟨hsup, hop, ?_, (pyTruthy_str_iff f).mpr hf⟩
  rw [hfn, hrpc, pyOr_falsy _ _ (by decide)]
  rfl

/-- C10 witness: the hypotheses and conclusion at the concrete node
`exRpcFallbackNode`. -/
theorem rpc_fallback_on_falsy_witness :
    (strContains (node_type_of exRpcFallbackNode) "supabase" = true ∧
     get_value (jget (node_params exRpcFallbackNode) "operation") =
       .str "call" ∧
     jget (node_params exRpcFallbackNode) "functionName" = .str "" ∧
     jget (node_params exRpcFallbackNode) "rpc" = .str "do_totals" ∧
     "do_totals" ≠ "") ∧
    JVal.str "do_totals" ∈
      (process_node exRpcFallbackNode ((∅, ∅) : UsageSets)).2 :=
  ⟨⟨by decide, by decide, by decide, by decide, by decide⟩,
   (rpc_fallback_on_falsy exRpcFallbackNode (∅, ∅) "do_totals" (by decide)
     (by decide) (by decide) (by decide) (by decide)).2⟩

end N8nVis
